import Mathlib

/-!
Verification of the resource correlation and filtering engine of the
coolify-ops Raycast extension (src/extensions/coolify-ops).

The TypeScript source is shallowly embedded: JavaScript id values
(`number | string | undefined | null`) become the inductive `JsId`,
arbitrary JSON responses become `JsValue`, JS `Map`s become association
lists with last-write-wins lookup, JS `Set`s become duplicate-free lists,
and each engine function (`toId`, `normalizeList`, `flattenEnvironments`,
the four lookup-map builders, the `applyFilter` variants and the URL
resolvers) is translated directly from its source definition.
-/

namespace CoolifyOps

/-- A JavaScript id value: `number | string | undefined | null`.
Numbers are restricted to integers (the ids in play are database keys);
`String(n)` on an integer is modelled by `Int` stringification. -/
inductive JsId where
  | undef
  | null
  | num (n : Int)
  | str (s : String)
deriving DecidableEq, Repr

/-- JS `a ?? b`: falls through on `undefined` and `null` only. -/
def jsOr (a b : JsId) : JsId :=
  match a with
  | .undef => b
  | .null => b
  | _ => a

/-- Lift a TS `string | undefined` field into the `JsId` universe. -/
def ofOpt (o : Option String) : JsId :=
  match o with
  | none => .undef
  | some s => .str s

/-- JS `String(value)` on an id value. -/
def jsString : JsId → String
  | .undef => "undefined"
  | .null => "null"
  | .num n => toString n
  | .str s => s

/-- JS `String.prototype.trim`: drop whitespace from both ends.
Modelled on the character list of the string. -/
def jsTrim (s : String) : String :=
  String.mk (((s.data.dropWhile Char.isWhitespace).reverse.dropWhile Char.isWhitespace).reverse)

/-- `toId` from `api/filters.ts` (search-databases.tsx lines 361-365):
`null` for `undefined`/`null`, otherwise the trimmed string form unless
that is empty. -/
def toId (value : JsId) : Option String :=
  match value with
  | .undef => none
  | .null => none
  | v =>
    let text := jsTrim (jsString v)
    if text.length > 0 then some text else none

/-- Truthiness of a TS `string | undefined`: `undefined` and `""` are falsy. -/
def strTruthy (o : Option String) : Bool :=
  match o with
  | none => false
  | some s => !(s == "")

/-! ## JS `Map<string, α>` and `Set<string>` models

A `Map` is an association list: `mset` prepends, so `mget` (first match)
realizes last-write-wins overwrite. A `Set` is a duplicate-free list:
`sadd` appends only when the element is absent. -/

/-- JS `Map<string, α>`. -/
abbrev StrMap (α : Type) : Type := List (String × α)

/-- JS `Map.prototype.set` (overwriting semantics via shadowing). -/
def mset {α : Type} (m : StrMap α) (k : String) (v : α) : StrMap α :=
  (k, v) :: m

/-- JS `Map.prototype.get` (`undefined` becomes `none`). -/
def mget {α : Type} (m : StrMap α) (k : String) : Option α :=
  match m with
  | [] => none
  | (k', v) :: rest => if k' = k then some v else mget rest k

/-- Two maps agree on every lookup. -/
def mapEquiv {α : Type} (m₁ m₂ : StrMap α) : Prop :=
  ∀ k, mget m₁ k = mget m₂ k

/-- JS `Set<string>`. -/
abbrev StrSet : Type := List String

/-- JS `Set.prototype.add`. -/
def sadd (s : StrSet) (x : String) : StrSet :=
  if s.contains x then s else s ++ [x]

/-! ## Data model (`api/filters.ts`) -/

/-- `Environment` from `api/filters.ts`: loosely typed ids. -/
structure Environment where
  id : JsId
  uuid : Option String
  name : Option String
  project_id : JsId
  project_uuid : Option String
deriving DecidableEq, Repr

/-- `Project` from `api/filters.ts`. -/
structure Project where
  id : JsId
  uuid : Option String
  name : Option String
  environments : Option (List Environment)
deriving DecidableEq, Repr

/-- `ProjectEnvironment = Environment & {projectId?, projectName?, projectUuid?}`. -/
structure ProjectEnvironment extends Environment where
  projectId : Option String
  projectName : Option String
  projectUuid : Option String
deriving DecidableEq, Repr

/-- The environment-key forms an environment is registered under:
normalized `id` followed by normalized `uuid` (write order of the builders). -/
def envKeys (env : ProjectEnvironment) : List String :=
  (toId env.id).toList ++ (toId (ofOpt env.uuid)).toList

/-- The project id resolved for an environment:
`toId(env.projectId ?? env.project_uuid ?? env.project_id)`. -/
def envProjectId (env : ProjectEnvironment) : Option String :=
  toId (jsOr (ofOpt env.projectId) (jsOr (ofOpt env.project_uuid) env.project_id))

/-- `env.name ?? "Unnamed Environment"`. -/
def envName (env : ProjectEnvironment) : String :=
  env.name.getD "Unnamed Environment"

/-! ## Environment relationship builders (search-databases.tsx lines 367-436) -/

/-- Per-environment record built by `flattenEnvironments` for one project:
spread of the environment plus `projectId`/`projectName`/`projectUuid`. -/
def enrichEnvironment (project : Project) (environment : Environment) : ProjectEnvironment :=
  let projectId := toId (jsOr project.id (ofOpt project.uuid))
  let projectUuid := if strTruthy project.uuid then project.uuid else none
  let projectName := project.name.getD "Unnamed Project"
  { toEnvironment := environment
    projectId :=
      match projectId with
      | some v => some v
      | none => toId (jsOr environment.project_id (ofOpt environment.project_uuid))
    projectName := some projectName
    projectUuid := projectUuid }

/-- `flattenEnvironments`: for each project, push one enriched record per
nested environment (`project.environments ?? []`). -/
def flattenEnvironments (projects : List Project) : List ProjectEnvironment :=
  projects.foldl
    (fun items project =>
      items ++ (project.environments.getD []).map (enrichEnvironment project))
    []

/-- Loop body of `buildEnvToProjectMap`: skip when the project id chain is
unresolvable, otherwise register it under the normalized id and uuid. -/
def envToProjectStep (map : StrMap String) (env : ProjectEnvironment) : StrMap String :=
  match envProjectId env with
  | none => map
  | some projectId =>
    let map1 :=
      match toId env.id with
      | some envId => mset map envId projectId
      | none => map
    match toId (ofOpt env.uuid) with
    | some envUuid => mset map1 envUuid projectId
    | none => map1

/-- `buildEnvToProjectMap(envs)`: fold of the loop body over the records. -/
def buildEnvToProjectMap (envs : List ProjectEnvironment) : StrMap String :=
  envs.foldl envToProjectStep []

/-- Loop body of `buildEnvNameMap`. -/
def envNameStep (map : StrMap String) (env : ProjectEnvironment) : StrMap String :=
  let name := envName env
  let map1 :=
    match toId env.id with
    | some envId => mset map envId name
    | none => map
  match toId (ofOpt env.uuid) with
  | some envUuid => mset map1 envUuid name
  | none => map1

/-- `buildEnvNameMap(envs)`. -/
def buildEnvNameMap (envs : List ProjectEnvironment) : StrMap String :=
  envs.foldl envNameStep []

/-- Loop body of `buildEnvLookup`. -/
def envLookupStep (map : StrMap ProjectEnvironment) (env : ProjectEnvironment) :
    StrMap ProjectEnvironment :=
  let map1 :=
    match toId env.id with
    | some envId => mset map envId env
    | none => map
  match toId (ofOpt env.uuid) with
  | some envUuid => mset map1 envUuid env
  | none => map1

/-- `buildEnvLookup(envs)`. -/
def buildEnvLookup (envs : List ProjectEnvironment) : StrMap ProjectEnvironment :=
  envs.foldl envLookupStep []

/-- Loop body of `buildEnvNameToIdsMap`: fetch (or create) the id set for the
display name, add the normalized id and uuid, and store it back unless empty. -/
def envNameToIdsStep (map : StrMap StrSet) (env : ProjectEnvironment) : StrMap StrSet :=
  let name := envName env
  let set0 := (mget map name).getD []
  let set1 :=
    match toId env.id with
    | some envId => sadd set0 envId
    | none => set0
  let set2 :=
    match toId (ofOpt env.uuid) with
    | some envUuid => sadd set1 envUuid
    | none => set1
  if set2.length == 0 then map else mset map name set2

/-- `buildEnvNameToIdsMap(envs)`. -/
def buildEnvNameToIdsMap (envs : List ProjectEnvironment) : StrMap StrSet :=
  envs.foldl envNameToIdsStep []

/-! ## Generic view of the last-write-wins builders (proof machinery) -/

/-- Insert a batch of key-value writes left to right. -/
def insertList {α : Type} (m : StrMap α) (ps : List (String × α)) : StrMap α :=
  ps.foldl (fun acc p => mset acc p.1 p.2) m

/-- Fold a per-record batch of writes over a record list, starting empty. -/
def buildGeneric {α : Type} (contrib : ProjectEnvironment → List (String × α))
    (envs : List ProjectEnvironment) : StrMap α :=
  envs.foldl (fun m e => insertList m (contrib e)) []

/-- Writes performed by `buildEnvToProjectMap` for one record. -/
def contribProject (env : ProjectEnvironment) : List (String × String) :=
  match envProjectId env with
  | none => []
  | some pid => (envKeys env).map (fun k => (k, pid))

/-- Writes performed by `buildEnvNameMap` for one record. -/
def contribName (env : ProjectEnvironment) : List (String × String) :=
  (envKeys env).map (fun k => (k, envName env))

/-- Writes performed by `buildEnvLookup` for one record. -/
def contribLookup (env : ProjectEnvironment) : List (String × ProjectEnvironment) :=
  (envKeys env).map (fun k => (k, env))

/-- Extensional equivalence of two name-to-id-set maps: same registered
names and the same set membership under every name. -/
def setMapEquiv (m₁ m₂ : StrMap StrSet) : Prop :=
  ∀ name, (mget m₁ name = none ↔ mget m₂ name = none) ∧
    ∀ x, (∃ s, mget m₁ name = some s ∧ s.contains x = true) ↔
      (∃ s, mget m₂ name = some s ∧ s.contains x = true)

/-- Some record of the list is displayed under `name` and registers a key. -/
def hasName (envs : List ProjectEnvironment) (name : String) : Prop :=
  ∃ e ∈ envs, envName e = name ∧ envKeys e ≠ []

/-- Some record displayed under `name` registers the key `x`. -/
def hasKeyUnderName (envs : List ProjectEnvironment) (name x : String) : Prop :=
  ∃ e ∈ envs, envName e = name ∧ x ∈ envKeys e

/-! ## Concrete records used by counterexamples and witnesses -/

/-- Environment with resolvable id and uuid but no project reference. -/
def envNoProject : ProjectEnvironment :=
  { id := .str "1", uuid := some "u1", name := some "production",
    project_id := .undef, project_uuid := none,
    projectId := none, projectName := none, projectUuid := none }

/-- Environment with id `"1"` owned by project `"A"`. -/
def envA : ProjectEnvironment :=
  { id := .str "1", uuid := none, name := some "production",
    project_id := .undef, project_uuid := none,
    projectId := some "A", projectName := some "Alpha", projectUuid := some "pa" }

/-- Environment with the same id `"1"` but owned by project `"B"`. -/
def envB : ProjectEnvironment :=
  { id := .str "1", uuid := none, name := some "staging",
    project_id := .undef, project_uuid := none,
    projectId := some "B", projectName := some "Beta", projectUuid := some "pb" }

/-- Fully-resolvable environment (id `"10"`, uuid `"e1"`, project `"1"`). -/
def envC : ProjectEnvironment :=
  { id := .str "10", uuid := some "e1", name := some "production",
    project_id := .undef, project_uuid := none,
    projectId := some "1", projectName := some "Demo", projectUuid := some "p1" }

/-- Fully-resolvable environment with keys disjoint from `envC`. -/
def envD : ProjectEnvironment :=
  { id := .str "20", uuid := some "e2", name := some "staging",
    project_id := .undef, project_uuid := none,
    projectId := some "2", projectName := some "Other", projectUuid := some "p2" }

/-! ## JSON value model and the deployment shape normalizer (part_003 lines 76-89) -/

/-- An arbitrary already-deserialized JSON/JS value. -/
inductive JsValue where
  | undef
  | null
  | bool (b : Bool)
  | num (n : Int)
  | str (s : String)
  | arr (elems : List JsValue)
  | obj (fields : List (String × JsValue))

/-- JS truthiness of a value. -/
def truthy : JsValue → Bool
  | .undef => false
  | .null => false
  | .bool b => b
  | .num n => !(n == 0)
  | .str s => !(s == "")
  | .arr _ => true
  | .obj _ => true

/-- `typeof v === "object"` — true for `null`, arrays and plain objects. -/
def isObjectType : JsValue → Bool
  | .null => true
  | .arr _ => true
  | .obj _ => true
  | _ => false

/-- Property access on an object's field list (`undefined` when absent). -/
def getField (fields : List (String × JsValue)) (key : String) : JsValue :=
  match fields with
  | [] => .undef
  | (k, v) :: rest => if k = key then v else getField rest key

/-- `Array.isArray`. -/
def isArr : JsValue → Bool
  | .arr _ => true
  | _ => false

/-- Elements of an array value (the `as T[]` cast under an `isArray` guard). -/
def arrElems : JsValue → List JsValue
  | .arr elems => elems
  | _ => []

/-- `normalizeList` from part_003 lines 76-89: bare arrays pass through;
objects are probed for `rows`, `data`, `deployments`, then the doubly
nested `data.rows` / `data.data`; everything else degrades to `[]`. -/
def normalizeList (response : JsValue) : List JsValue :=
  if isArr response then arrElems response
  else if !(truthy response) || !(isObjectType response) then []
  else
    match response with
    | .obj fields =>
      if isArr (getField fields "rows") then arrElems (getField fields "rows")
      else if isArr (getField fields "data") then arrElems (getField fields "data")
      else if isArr (getField fields "deployments") then arrElems (getField fields "deployments")
      else
        let dataVal := getField fields "data"
        if truthy dataVal && isObjectType dataVal then
          match dataVal with
          | .obj nested =>
            if isArr (getField nested "rows") then arrElems (getField nested "rows")
            else if isArr (getField nested "data") then arrElems (getField nested "data")
            else []
          | _ => []
        else []
    | _ => []

/-- Bare environment with no ids and no project references. -/
def envPlain : Environment :=
  { id := .undef, uuid := none, name := none, project_id := .undef, project_uuid := none }

/-- Project with a present-but-blank id `" "` and a resolvable uuid. -/
def pBlankId : Project :=
  { id := .str " ", uuid := some "u", name := none, environments := some [envPlain] }

/-- Environment nested under `pDemo`. -/
def envE : Environment :=
  { id := .num 10, uuid := some "e1", name := some "production",
    project_id := .undef, project_uuid := none }

/-- Fully-populated project. -/
def pDemo : Project :=
  { id := .num 1, uuid := some "p1", name := some "Demo", environments := some [envE] }

/-! ## Resource records -/

/-- Unified resource item (`lib/resources.ts`, part_004 lines 37-48). -/
structure ResourceItem where
  id : String
  uuid : Option String
  type : String
  name : String
  subtitle : Option String
  environmentId : Option String
  repo : Option String
  kind : Option String
  url : Option String
  status : Option String
deriving DecidableEq, Repr

/-- Database record (search-databases.tsx lines 13-21). -/
structure Database where
  id : JsId
  uuid : Option String
  name : Option String
  description : Option String
  environment_id : JsId
  environment_uuid : Option String
  db_type : Option String
deriving DecidableEq, Repr

/-- Application record (search-applications.tsx lines 22-34). -/
structure Application where
  id : JsId
  uuid : Option String
  name : Option String
  fqdn : Option String
  git_repository : Option String
  git_branch : Option String
  environment_id : JsId
  environment_uuid : Option String
  status : Option String
  deployment_status : Option String
  last_deployment_status : Option String
deriving DecidableEq, Repr

/-- Deployment record (part_003 lines 19-42; fields only used for
rendering are omitted). -/
structure Deployment where
  id : JsId
  deployment_uuid : Option String
  status : Option String
  application_id : JsId
  application_uuid : Option String
  application_name : Option String
  name : Option String
  created_at : Option String
  source_app_uuid : Option String
  environment_id : JsId
  environment_uuid : Option String
deriving DecidableEq, Repr

/-! ## String helpers shared by the filters and URL resolvers -/

/-- JS `String.prototype.startsWith`. -/
def strStarts (s pre : String) : Bool :=
  pre.data.isPrefixOf s.data

/-- `filterValue.replace(tag, "")` under the guard that `filterValue`
begins with `tag`: drops the leading occurrence. -/
def stripTag (tag s : String) : String :=
  String.mk (s.data.drop tag.data.length)

/-- `replace(/\/+$/, "")`: strip all trailing slashes. -/
def stripTrailing (s : String) : String :=
  String.mk ((s.data.reverse.dropWhile (fun c => c == '/')).reverse)

/-- JS `String.prototype.split` on a single-character separator, on the
character list (`"".split(sep)` gives `[""]`). -/
def splitOnChar (sep : Char) : List Char → List (List Char)
  | [] => [[]]
  | c :: cs =>
    let r := splitOnChar sep cs
    if c == sep then [] :: r
    else
      match r with
      | [] => [[c]]
      | g :: gs => (c :: g) :: gs

/-- JS `String.prototype.split` with a single-character separator. -/
def jsSplit (s : String) (sep : Char) : List String :=
  (splitOnChar sep s.data).map String.mk

/-! ## Deployment status and linkage helpers (part_003 lines 53-156) -/

/-- `ACTIVE_STATUSES` (part_003 line 53). -/
def ACTIVE_STATUSES : List String :=
  ["running", "queued", "pending", "in_progress", "deploying", "building"]

/-- Replace each maximal run of characters matching `p` with a single `r`
(the flag records being inside a run). -/
def collapseRuns (p : Char → Bool) (r : Char) : Bool → List Char → List Char
  | _, [] => []
  | inRun, c :: cs =>
    if p c then
      if inRun then collapseRuns p r true cs
      else r :: collapseRuns p r true cs
    else c :: collapseRuns p r false cs

/-- `normalizeStatus` (part_003 lines 55-57): lowercase, then collapse
whitespace runs and hyphen runs to underscores. -/
def normalizeStatus (status : Option String) : String :=
  let lowered := (status.getD "").toLower
  let s1 := String.mk (collapseRuns (fun c => c.isWhitespace) '_' false lowered.data)
  String.mk (collapseRuns (fun c => c == '-') '_' false s1.data)

/-- `resolveAppKey` (part_003 lines 154-156):
`String(source_app_uuid ?? application_uuid ?? application_id ?? "")`. -/
def resolveAppKey (deployment : Deployment) : String :=
  jsString (jsOr (ofOpt deployment.source_app_uuid)
    (jsOr (ofOpt deployment.application_uuid) (jsOr deployment.application_id (.str ""))))

/-- `resolveEnvId` (part_003 lines 147-152): app-map value when truthy,
else the deployment's own environment fields, else `""`. -/
def resolveEnvId (deployment : Deployment) (appIdToEnvId : StrMap String) (appKey : String) :
    String :=
  let fromMap := mget appIdToEnvId appKey
  if strTruthy fromMap then fromMap.getD ""
  else (toId (jsOr deployment.environment_id (ofOpt deployment.environment_uuid))).getD ""

/-- `getPrimaryUrl` (part_004 lines 50-56, search-applications lines 36-42):
trimmed first comma token of `fqdn`, `https://`-prefixed unless it already
starts with `http://` or `https://`. -/
def getPrimaryUrl (app : Application) : Option String :=
  if !strTruthy app.fqdn then none
  else
    let raw := jsTrim ((jsSplit (app.fqdn.getD "") ',').headD "")
    if raw == "" then none
    else if strStarts raw "http://" || strStarts raw "https://" then some raw
    else some ("https://" ++ raw)

/-! ## Filter engines and URL resolvers, per command -/

namespace Resources

/-- `applyFilter` from search-resources.tsx lines 21-46
(checks: all, project, env, type). -/
def applyFilter (items : List ResourceItem) (filterValue : String)
    (envToProjectMap : StrMap String) (envNameToIds : StrMap StrSet) : List ResourceItem :=
  if filterValue = "all" then items
  else if strStarts filterValue "project:" then
    let projectId := stripTag "project:" filterValue
    items.filter (fun item =>
      mget envToProjectMap (item.environmentId.getD "") == some projectId)
  else if strStarts filterValue "env:" then
    let name := stripTag "env:" filterValue
    match mget envNameToIds name with
    | none => []
    | some envIds => items.filter (fun item => envIds.contains (item.environmentId.getD ""))
  else if strStarts filterValue "type:" then
    let t := stripTag "type:" filterValue
    items.filter (fun item => item.type == t)
  else items

/-- `resolveResourceUrl` from search-resources.tsx lines 405-421. -/
def resolveResourceUrl (instanceUrl : String)
    (projectUuid environmentUuid resourceUuid : Option String) (type : String) :
    Option String :=
  if !strTruthy projectUuid || !strTruthy environmentUuid || !strTruthy resourceUuid then none
  else
    some (stripTrailing instanceUrl ++ "/project/" ++ projectUuid.getD "" ++
      "/environment/" ++ environmentUuid.getD "" ++ "/" ++ type ++ "/" ++ resourceUuid.getD "")

end Resources

namespace Databases

/-- `applyFilter` from search-databases.tsx lines 50-71
(checks: all, env, project). -/
def applyFilter (items : List Database) (filterValue : String)
    (envToProjectMap : StrMap String) (envNameToIds : StrMap StrSet) : List Database :=
  if filterValue = "all" then items
  else if strStarts filterValue "env:" then
    let name := stripTag "env:" filterValue
    match mget envNameToIds name with
    | none => []
    | some envIds =>
      items.filter (fun item => envIds.contains (jsString (jsOr item.environment_id (.str ""))))
  else if strStarts filterValue "project:" then
    let projectId := stripTag "project:" filterValue
    items.filter (fun item =>
      mget envToProjectMap (jsString (jsOr item.environment_id (.str ""))) == some projectId)
  else items

end Databases

namespace Applications

/-- `applyFilter` from search-applications.tsx lines 87-109
(checks: all, env, project guarded by `hasEnvMapping`). -/
def applyFilter (items : List Application) (filterValue : String)
    (envToProjectMap : StrMap String) (hasEnvMapping : Bool)
    (envNameToIds : StrMap StrSet) : List Application :=
  if filterValue = "all" then items
  else if strStarts filterValue "env:" then
    let name := stripTag "env:" filterValue
    match mget envNameToIds name with
    | none => []
    | some envIds =>
      items.filter (fun item => envIds.contains (jsString (jsOr item.environment_id (.str ""))))
  else if strStarts filterValue "project:" then
    if !hasEnvMapping then items
    else
      let projectId := stripTag "project:" filterValue
      items.filter (fun item =>
        mget envToProjectMap (jsString (jsOr item.environment_id (.str ""))) == some projectId)
  else items

end Applications

namespace Deployments

/-- `applyFilter` from part_003 lines 190-220
(checks: all, status:active, project, env). -/
def applyFilter (items : List Deployment) (filterValue : String)
    (envToProjectMap : StrMap String) (envNameToIds : StrMap StrSet)
    (appIdToEnvId : StrMap String) : List Deployment :=
  if filterValue = "all" then items
  else if filterValue = "status:active" then
    items.filter (fun item => ACTIVE_STATUSES.contains (normalizeStatus item.status))
  else if strStarts filterValue "project:" then
    let projectId := stripTag "project:" filterValue
    items.filter (fun item =>
      let appKey := resolveAppKey item
      let envId := resolveEnvId item appIdToEnvId appKey
      mget envToProjectMap envId == some projectId)
  else if strStarts filterValue "env:" then
    let name := stripTag "env:" filterValue
    match mget envNameToIds name with
    | none => []
    | some envIds =>
      items.filter (fun item =>
        envIds.contains (resolveEnvId item appIdToEnvId (resolveAppKey item)))
  else items

/-- `buildCoolifyDeploymentUrl` from part_003 lines 97-113. -/
def buildCoolifyDeploymentUrl (instanceUrl : String)
    (projectUuid environmentUuid applicationUuid deploymentUuid : Option String) :
    Option String :=
  if !strTruthy projectUuid || !strTruthy environmentUuid || !strTruthy applicationUuid ||
      !strTruthy deploymentUuid then none
  else
    some (stripTrailing instanceUrl ++ "/project/" ++ projectUuid.getD "" ++
      "/environment/" ++ environmentUuid.getD "" ++ "/application/" ++
      applicationUuid.getD "" ++ "/deployment/" ++ deploymentUuid.getD "")

/-- `buildCoolifyLogsUrl` from part_003 lines 115-129. -/
def buildCoolifyLogsUrl (instanceUrl : String)
    (projectUuid environmentUuid applicationUuid : Option String) : Option String :=
  if !strTruthy projectUuid || !strTruthy environmentUuid || !strTruthy applicationUuid then
    none
  else
    some (stripTrailing instanceUrl ++ "/project/" ++ projectUuid.getD "" ++
      "/environment/" ++ environmentUuid.getD "" ++ "/application/" ++
      applicationUuid.getD "" ++ "/logs")

end Deployments

/-! ## Concrete records for the filter and URL claims -/

/-- Application whose environment id is mapped, used to exhibit the
`hasEnvMapping = false` bypass. -/
def appZ : Application :=
  { id := .num 100, uuid := some "a1", name := some "web", fqdn := none,
    git_repository := none, git_branch := none, environment_id := .num 9,
    environment_uuid := none, status := none, deployment_status := none,
    last_deployment_status := none }

/-- Map sending environment id `"9"` to project `"A"`. -/
def mapZ : StrMap String := [("9", "A")]

/-- Application whose `fqdn` declares the `ftp` scheme. -/
def appFtp : Application :=
  { id := .num 1, uuid := some "af", name := some "legacy",
    fqdn := some "ftp://files.example.com",
    git_repository := none, git_branch := none, environment_id := .num 1,
    environment_uuid := none, status := none, deployment_status := none,
    last_deployment_status := none }

/-- Database with no `environment_id` but a registered `environment_uuid`. -/
def dbNoEnv : Database :=
  { id := .num 5, uuid := some "dbu", name := some "pg", description := none,
    environment_id := .undef, environment_uuid := some "e1",
    db_type := some "postgresql" }

/-- Application with null `environment_id` but a registered uuid. -/
def appNoEnv : Application :=
  { id := .num 6, uuid := some "apu", name := some "api", fqdn := none,
    git_repository := none, git_branch := none, environment_id := .null,
    environment_uuid := some "e1", status := none, deployment_status := none,
    last_deployment_status := none }

theorem string_eq_empty_of_length_zero {s : String} (h : s.length = 0) : s = "" := by
  cases s with
  | mk data =>
    cases data with
    | nil => rfl
    | cons c cs => simp [String.length] at h

theorem toId_num_eq (n : Int) :
    toId (.num n) =
      (if (jsTrim (jsString (.num n))).length > 0 then some (jsTrim (jsString (.num n)))
       else none) := rfl

theorem toId_str_eq (s : String) :
    toId (.str s) =
      (if (jsTrim (jsString (.str s))).length > 0 then some (jsTrim (jsString (.str s)))
       else none) := rfl

theorem toId_blank_char (v : JsId) :
    toId v = none ↔ (v = .undef ∨ v = .null ∨ jsTrim (jsString v) = "") := by
  cases v with
  | undef => simp [toId]
  | null => simp [toId]
  | num n =>
    rw [toId_num_eq]
    constructor
    · intro h
      split at h
      · exact absurd h (by simp)
      · rename_i hlen
        right; right
        exact string_eq_empty_of_length_zero (Nat.eq_zero_of_not_pos hlen)
    · intro h
      rcases h with h | h | h
      · exact absurd h (by simp)
      · exact absurd h (by simp)
      · rw [h]; rfl
  | str s =>
    rw [toId_str_eq]
    constructor
    · intro h
      split at h
      · exact absurd h (by simp)
      · rename_i hlen
        right; right
        exact string_eq_empty_of_length_zero (Nat.eq_zero_of_not_pos hlen)
    · intro h
      rcases h with h | h | h
      · exact absurd h (by simp)
      · exact absurd h (by simp)
      · rw [h]; rfl

theorem toId_not_blank (v : JsId) (h : toId v ≠ none) :
    toId v = some (jsTrim (jsString v)) := by
  cases v with
  | undef => exact absurd rfl h
  | null => exact absurd rfl h
  | num n =>
    rw [toId_num_eq] at h ⊢
    split at h
    · rename_i hlen
      simp
      omega
    · exact absurd rfl h
  | str s =>
    rw [toId_str_eq] at h ⊢
    split at h
    · rename_i hlen
      simp
      omega
    · exact absurd rfl h

theorem mget_mset {α : Type} (m : StrMap α) (k k' : String) (v : α) :
    mget (mset m k v) k' = if k = k' then some v else mget m k' := rfl

theorem mget_mem {α : Type} {m : StrMap α} {k : String} {v : α}
    (h : mget m k = some v) : (k, v) ∈ m := by
  induction m with
  | nil => simp [mget] at h
  | cons p rest ih =>
    obtain ⟨k', v'⟩ := p
    rw [mget] at h
    split at h
    · rename_i hk
      subst hk
      cases h
      exact List.mem_cons_self _ _
    · exact List.mem_cons_of_mem _ (ih h)

theorem mget_none_iff {α : Type} (m : StrMap α) (k : String) :
    mget m k = none ↔ ∀ v, (k, v) ∉ m := by
  induction m with
  | nil => simp [mget]
  | cons p rest ih =>
    obtain ⟨k', v'⟩ := p
    rw [mget]
    split
    · rename_i hk
      subst hk
      constructor
      · intro h
        exact absurd h (by simp)
      · intro h
        exact absurd (List.mem_cons_self _ _) (h v')
    · rename_i hk
      rw [ih]
      constructor
      · intro h v hv
        rcases List.mem_cons.mp hv with h1 | h1
        · exact hk (by cases h1; rfl)
        · exact h v h1
      · intro h v hv
        exact h v (List.mem_cons_of_mem _ hv)

theorem mget_append_of_some {α : Type} {m₁ : StrMap α} (m₂ : StrMap α)
    {k : String} {v : α} (h : mget m₁ k = some v) :
    mget (m₁ ++ m₂) k = some v := by
  induction m₁ with
  | nil => simp [mget] at h
  | cons p rest ih =>
    obtain ⟨k', v'⟩ := p
    rw [mget] at h
    rw [List.cons_append, mget]
    split at h
    · rename_i hk
      rw [if_pos hk]
      exact h
    · rename_i hk
      rw [if_neg hk]
      exact ih h

theorem mget_append_of_none {α : Type} {m₁ : StrMap α} (m₂ : StrMap α)
    {k : String} (h : mget m₁ k = none) :
    mget (m₁ ++ m₂) k = mget m₂ k := by
  induction m₁ with
  | nil => simp
  | cons p rest ih =>
    obtain ⟨k', v'⟩ := p
    rw [mget] at h
    rw [List.cons_append, mget]
    split at h
    · simp at h
    · rename_i hk
      rw [if_neg hk]
      exact ih h

/-- C1: `toId` returns `null` exactly on `undefined`, `null`, and values whose
trimmed string representation is blank; otherwise it returns the trimmed
string representation, so `42`, `"42"` and `" 42 "` all normalize to `"42"`. -/
theorem toId_spec :
    (∀ v : JsId, toId v = none ↔ (v = .undef ∨ v = .null ∨ jsTrim (jsString v) = "")) ∧
    (∀ v : JsId, ¬(v = .undef ∨ v = .null ∨ jsTrim (jsString v) = "") →
      toId v = some (jsTrim (jsString v))) ∧
    toId (.num 42) = some "42" ∧ toId (.str "42") = some "42" ∧
    toId (.str " 42 ") = some "42" := by
  refine ⟨toId_blank_char, ?_, by decide, by decide, by decide⟩
  intro v h
  exact toId_not_blank v (fun hn => h ((toId_blank_char v).mp hn))

/-- Witness for C1 at a concrete non-blank input. -/
theorem toId_spec_witness :
    ¬((JsId.str " 7 ") = .undef ∨ (JsId.str " 7 ") = .null ∨
        jsTrim (jsString (.str " 7 ")) = "") ∧
    toId (.str " 7 ") = some (jsTrim (jsString (.str " 7 "))) :=
  ⟨by decide, toId_spec.2.1 (.str " 7 ") (by decide)⟩

theorem insertList_eq {α : Type} (ps : List (String × α)) :
    ∀ m : StrMap α, insertList m ps = ps.reverse ++ m := by
  induction ps with
  | nil => intro m; rfl
  | cons p rest ih =>
    intro m
    show insertList (mset m p.1 p.2) rest = _
    rw [ih]
    simp [mset]

theorem buildGeneric_shape {α : Type} (contrib : ProjectEnvironment → List (String × α))
    (envs : List ProjectEnvironment) :
    ∀ m : StrMap α,
      envs.foldl (fun acc e => insertList acc (contrib e)) m =
        ((envs.map contrib).flatten).reverse ++ m := by
  induction envs with
  | nil => intro m; rfl
  | cons e rest ih =>
    intro m
    show rest.foldl _ (insertList m (contrib e)) = _
    rw [ih, insertList_eq]
    simp

theorem buildGeneric_eq_flatten {α : Type} (contrib : ProjectEnvironment → List (String × α))
    (envs : List ProjectEnvironment) :
    buildGeneric contrib envs = ((envs.map contrib).flatten).reverse := by
  rw [buildGeneric, buildGeneric_shape]
  simp

theorem buildGeneric_mem_iff {α : Type} (contrib : ProjectEnvironment → List (String × α))
    (envs : List ProjectEnvironment) (k : String) (v : α) :
    (k, v) ∈ buildGeneric contrib envs ↔ ∃ e ∈ envs, (k, v) ∈ contrib e := by
  rw [buildGeneric_eq_flatten]
  simp [List.mem_flatten]

theorem mget_build_none_iff {α : Type} (contrib : ProjectEnvironment → List (String × α))
    (envs : List ProjectEnvironment) (k : String) :
    mget (buildGeneric contrib envs) k = none ↔
      ∀ e ∈ envs, ∀ v, (k, v) ∉ contrib e := by
  rw [mget_none_iff]
  constructor
  · intro h e he v hv
    exact h v ((buildGeneric_mem_iff contrib envs k v).mpr ⟨e, he, hv⟩)
  · intro h v hv
    obtain ⟨e, he, hm⟩ := (buildGeneric_mem_iff contrib envs k v).mp hv
    exact h e he v hm

theorem mget_build_some {α : Type} {contrib : ProjectEnvironment → List (String × α)}
    {envs : List ProjectEnvironment} {k : String} {v : α}
    (h : mget (buildGeneric contrib envs) k = some v) :
    ∃ e ∈ envs, (k, v) ∈ contrib e :=
  (buildGeneric_mem_iff contrib envs k v).mp (mget_mem h)

theorem mget_build_ne_none {α : Type} {contrib : ProjectEnvironment → List (String × α)}
    {envs : List ProjectEnvironment} {k : String} {v : α} {e : ProjectEnvironment}
    (he : e ∈ envs) (hv : (k, v) ∈ contrib e) :
    mget (buildGeneric contrib envs) k ≠ none := by
  intro hn
  exact (mget_build_none_iff contrib envs k).mp hn e he v hv

/-- Order independence of a last-write-wins builder when no two records
write conflicting values under the same key. -/
theorem buildGeneric_perm {α : Type} (contrib : ProjectEnvironment → List (String × α))
    {l l' : List ProjectEnvironment} (hp : l.Perm l')
    (hnc : ∀ e₁ ∈ l, ∀ e₂ ∈ l, ∀ k v₁ v₂,
      (k, v₁) ∈ contrib e₁ → (k, v₂) ∈ contrib e₂ → v₁ = v₂) :
    mapEquiv (buildGeneric contrib l) (buildGeneric contrib l') := by
  intro k
  cases h1 : mget (buildGeneric contrib l) k with
  | none =>
    rw [mget_build_none_iff] at h1
    symm
    rw [mget_build_none_iff]
    intro e he v hv
    exact h1 e (hp.mem_iff.mpr he) v hv
  | some v =>
    obtain ⟨e, he, hv⟩ := mget_build_some h1
    cases h2 : mget (buildGeneric contrib l') k with
    | none =>
      exact absurd h2 (mget_build_ne_none (hp.mem_iff.mp he) hv)
    | some v' =>
      obtain ⟨e', he', hv'⟩ := mget_build_some h2
      rw [hnc e he e' (hp.mem_iff.mpr he') k v v' hv hv']

/-- Duplicating the input does not change a last-write-wins builder's map. -/
theorem buildGeneric_append_self {α : Type} (contrib : ProjectEnvironment → List (String × α))
    (l : List ProjectEnvironment) :
    mapEquiv (buildGeneric contrib (l ++ l)) (buildGeneric contrib l) := by
  intro k
  rw [buildGeneric_eq_flatten, buildGeneric_eq_flatten]
  simp only [List.map_append, List.flatten_append, List.reverse_append]
  cases h : mget (((l.map contrib).flatten).reverse) k with
  | none => rw [mget_append_of_none _ h, h]
  | some v => rw [mget_append_of_some _ h]

theorem mget_of_mem_const {α : Type} {l : List (String × α)} {k : String} {v : α}
    (hconst : ∀ p ∈ l, (p : String × α).2 = v) (hmem : (k, v) ∈ l) :
    mget l k = some v := by
  induction l with
  | nil => simp at hmem
  | cons p rest ih =>
    obtain ⟨k', v'⟩ := p
    rw [mget]
    split
    · rename_i hk
      exact congrArg some (hconst (k', v') (List.mem_cons_self _ _))
    · rename_i hk
      rcases List.mem_cons.mp hmem with h1 | h1
      · cases h1; exact absurd rfl hk
      · exact ih (fun p hp => hconst p (List.mem_cons_of_mem _ hp)) h1

/-- Last write wins: the final record's writes always survive. -/
theorem mget_build_concat {α : Type} (contrib : ProjectEnvironment → List (String × α))
    (l : List ProjectEnvironment) (e : ProjectEnvironment) {k : String} {v : α}
    (hmem : (k, v) ∈ contrib e) (hconst : ∀ p ∈ contrib e, (p : String × α).2 = v) :
    mget (buildGeneric contrib (l ++ [e])) k = some v := by
  rw [buildGeneric, List.foldl_append]
  show mget (insertList _ (contrib e)) k = some v
  rw [insertList_eq]
  exact mget_append_of_some _
    (mget_of_mem_const (fun p hp => hconst p (List.mem_reverse.mp hp))
      (List.mem_reverse.mpr hmem))

theorem pair_mem_map_const {α : Type} {l : List String} {k : String} {v c : α} :
    (k, v) ∈ l.map (fun x => (x, c)) ↔ k ∈ l ∧ v = c := by
  simp only [List.mem_map, Prod.mk.injEq]
  constructor
  · rintro ⟨x, hx, rfl, rfl⟩
    exact ⟨hx, rfl⟩
  · rintro ⟨hk, rfl⟩
    exact ⟨k, hk, rfl, rfl⟩

theorem contribLookup_mem {e : ProjectEnvironment} {k : String} {v : ProjectEnvironment} :
    (k, v) ∈ contribLookup e ↔ k ∈ envKeys e ∧ v = e := by
  rw [contribLookup]
  exact pair_mem_map_const

theorem contribName_mem {e : ProjectEnvironment} {k v : String} :
    (k, v) ∈ contribName e ↔ k ∈ envKeys e ∧ v = envName e := by
  rw [contribName]
  exact pair_mem_map_const

theorem contribProject_mem {e : ProjectEnvironment} {k v : String} :
    (k, v) ∈ contribProject e ↔
      ∃ pid, envProjectId e = some pid ∧ k ∈ envKeys e ∧ v = pid := by
  rw [contribProject]
  cases hp : envProjectId e with
  | none => simp
  | some pid =>
    rw [pair_mem_map_const]
    constructor
    · rintro ⟨hk, hv⟩
      exact ⟨pid, rfl, hk, hv⟩
    · rintro ⟨pid', hpid', hk, hv⟩
      cases hpid'
      exact ⟨hk, hv⟩

theorem envToProjectStep_eq (m : StrMap String) (e : ProjectEnvironment) :
    envToProjectStep m e = insertList m (contribProject e) := by
  rw [envToProjectStep, contribProject]
  cases hp : envProjectId e with
  | none => rfl
  | some pid =>
    rw [envKeys]
    cases h1 : toId e.id <;> cases h2 : toId (ofOpt e.uuid) <;>
      simp [insertList, Option.toList]

theorem envNameStep_eq (m : StrMap String) (e : ProjectEnvironment) :
    envNameStep m e = insertList m (contribName e) := by
  rw [envNameStep, contribName, envKeys]
  cases h1 : toId e.id <;> cases h2 : toId (ofOpt e.uuid) <;>
    simp [insertList, Option.toList]

theorem envLookupStep_eq (m : StrMap ProjectEnvironment) (e : ProjectEnvironment) :
    envLookupStep m e = insertList m (contribLookup e) := by
  rw [envLookupStep, contribLookup, envKeys]
  cases h1 : toId e.id <;> cases h2 : toId (ofOpt e.uuid) <;>
    simp [insertList, Option.toList]

theorem buildEnvToProjectMap_eq (envs : List ProjectEnvironment) :
    buildEnvToProjectMap envs = buildGeneric contribProject envs := by
  rw [buildEnvToProjectMap, buildGeneric]
  congr 1
  funext m e
  exact envToProjectStep_eq m e

theorem buildEnvNameMap_eq (envs : List ProjectEnvironment) :
    buildEnvNameMap envs = buildGeneric contribName envs := by
  rw [buildEnvNameMap, buildGeneric]
  congr 1
  funext m e
  exact envNameStep_eq m e

theorem buildEnvLookup_eq (envs : List ProjectEnvironment) :
    buildEnvLookup envs = buildGeneric contribLookup envs := by
  rw [buildEnvLookup, buildGeneric]
  congr 1
  funext m e
  exact envLookupStep_eq m e

/-- C3 (counterexample): an environment whose id and uuid both normalize
(`"1"` and `"u1"`) but whose project reference chain is unresolvable is
skipped entirely by `buildEnvToProjectMap`, so the map holds no entry under
either key form, contradicting the claim that every environment with a
resolvable id or uuid is registered in both maps. -/
theorem buildEnvToProjectMap_missing_entry :
    toId envNoProject.id = some "1" ∧
    toId (ofOpt envNoProject.uuid) = some "u1" ∧
    mget (buildEnvToProjectMap [envNoProject]) "1" = none ∧
    mget (buildEnvToProjectMap [envNoProject]) "u1" = none := by
  refine ⟨by decide, by decide, ?_, ?_⟩ <;> decide

/-- C3 (amended): for an environment of the input whose keys are not shared
with any distinct record, `buildEnvLookup` maps every present key form (the
normalized id and the normalized uuid) to that same record, and — provided
the environment's project reference chain resolves — `buildEnvToProjectMap`
maps every present key form to that same project id. -/
theorem envLookup_envToProject_keyed_both (envs : List ProjectEnvironment)
    (e : ProjectEnvironment) (he : e ∈ envs)
    (huniq : ∀ e' ∈ envs, ∀ k, k ∈ envKeys e' → k ∈ envKeys e → e' = e) :
    (∀ k, k ∈ envKeys e → mget (buildEnvLookup envs) k = some e) ∧
    (∀ pid, envProjectId e = some pid →
      ∀ k, k ∈ envKeys e → mget (buildEnvToProjectMap envs) k = some pid) := by
  constructor
  · intro k hk
    rw [buildEnvLookup_eq]
    cases hres : mget (buildGeneric contribLookup envs) k with
    | none =>
      exact absurd hres
        (mget_build_ne_none he (contribLookup_mem.mpr ⟨hk, rfl⟩))
    | some v =>
      obtain ⟨e', he', hv⟩ := mget_build_some hres
      obtain ⟨hk', hveq⟩ := contribLookup_mem.mp hv
      rw [hveq, huniq e' he' k hk' hk]
  · intro pid hpid k hk
    rw [buildEnvToProjectMap_eq]
    cases hres : mget (buildGeneric contribProject envs) k with
    | none =>
      exact absurd hres
        (mget_build_ne_none he (contribProject_mem.mpr ⟨pid, hpid, hk, rfl⟩))
    | some v =>
      obtain ⟨e', he', hv⟩ := mget_build_some hres
      obtain ⟨pid', hpid', hk', hveq⟩ := contribProject_mem.mp hv
      have heq : e' = e := huniq e' he' k hk' hk
      rw [heq] at hpid'
      rw [hpid] at hpid'
      cases hpid'
      rw [hveq]

/-- Witness for C3 (amended) on a one-element list. -/
theorem envLookup_envToProject_keyed_both_witness :
    mget (buildEnvLookup [envC]) "10" = some envC ∧
    mget (buildEnvLookup [envC]) "e1" = some envC ∧
    mget (buildEnvToProjectMap [envC]) "10" = some "1" ∧
    mget (buildEnvToProjectMap [envC]) "e1" = some "1" := by
  have h := envLookup_envToProject_keyed_both [envC] envC (by decide)
    (by
      intro e' he' k hk1 hk2
      simpa using he')
  exact ⟨h.1 "10" (by decide), h.1 "e1" (by decide),
    h.2 "1" (by decide) "10" (by decide), h.2 "1" (by decide) "e1" (by decide)⟩

theorem scontains_iff {s : StrSet} {x : String} : s.contains x = true ↔ x ∈ s := by
  induction s with
  | nil => simp [List.contains]
  | cons a as ih =>
    rw [List.contains]
    show (x == a || as.elem x) = true ↔ _
    rw [Bool.or_eq_true, List.mem_cons]
    constructor
    · rintro (h | h)
      · exact Or.inl (eq_of_beq h)
      · exact Or.inr (ih.mp h)
    · rintro (rfl | h)
      · exact Or.inl (beq_self_eq_true x)
      · exact Or.inr (ih.mpr h)

theorem sadd_mem {s : StrSet} {x y : String} : y ∈ sadd s x ↔ y ∈ s ∨ y = x := by
  rw [sadd]
  split
  · rename_i h
    constructor
    · exact Or.inl
    · rintro (h1 | rfl)
      · exact h1
      · exact scontains_iff.mp h
  · simp

theorem sadd_ne_nil {s : StrSet} {x : String} : sadd s x ≠ [] := by
  rw [sadd]
  split
  · rename_i h
    intro hnil
    rw [hnil] at h
    simp [List.contains] at h
  · simp

theorem foldl_sadd_mem (keys : List String) :
    ∀ (s : StrSet) (x : String), x ∈ keys.foldl sadd s ↔ x ∈ s ∨ x ∈ keys := by
  induction keys with
  | nil =>
    intro s x
    simp
  | cons k ks ih =>
    intro s x
    show x ∈ ks.foldl sadd (sadd s k) ↔ _
    rw [ih, sadd_mem, List.mem_cons, or_assoc]

theorem foldl_sadd_eq_nil_iff (keys : List String) :
    ∀ s : StrSet, keys.foldl sadd s = [] ↔ (s = [] ∧ keys = []) := by
  induction keys with
  | nil =>
    intro s
    simp
  | cons k ks ih =>
    intro s
    show ks.foldl sadd (sadd s k) = [] ↔ _
    rw [ih]
    simp [sadd_ne_nil]

theorem envNameToIdsStep_eq (m : StrMap StrSet) (e : ProjectEnvironment) :
    envNameToIdsStep m e =
      (if ((envKeys e).foldl sadd ((mget m (envName e)).getD [])).length == 0 then m
       else mset m (envName e) ((envKeys e).foldl sadd ((mget m (envName e)).getD []))) := by
  rw [envNameToIdsStep, envKeys]
  cases h1 : toId e.id <;> cases h2 : toId (ofOpt e.uuid) <;>
    simp [Option.toList, List.foldl]

theorem hasName_append (l : List ProjectEnvironment) (e : ProjectEnvironment) (name : String) :
    hasName (l ++ [e]) name ↔ hasName l name ∨ (envName e = name ∧ envKeys e ≠ []) := by
  constructor
  · rintro ⟨e', he', hn, hk⟩
    rcases List.mem_append.mp he' with h | h
    · exact Or.inl ⟨e', h, hn, hk⟩
    · rcases List.mem_singleton.mp h with rfl
      exact Or.inr ⟨hn, hk⟩
  · rintro (⟨e', h, hn, hk⟩ | ⟨hn, hk⟩)
    · exact ⟨e', List.mem_append.mpr (Or.inl h), hn, hk⟩
    · exact ⟨e, List.mem_append.mpr (Or.inr (List.mem_singleton.mpr rfl)), hn, hk⟩

theorem hasKeyUnderName_append (l : List ProjectEnvironment) (e : ProjectEnvironment)
    (name x : String) :
    hasKeyUnderName (l ++ [e]) name x ↔
      hasKeyUnderName l name x ∨ (envName e = name ∧ x ∈ envKeys e) := by
  constructor
  · rintro ⟨e', he', hn, hk⟩
    rcases List.mem_append.mp he' with h | h
    · exact Or.inl ⟨e', h, hn, hk⟩
    · rcases List.mem_singleton.mp h with rfl
      exact Or.inr ⟨hn, hk⟩
  · rintro (⟨e', h, hn, hk⟩ | ⟨hn, hk⟩)
    · exact ⟨e', List.mem_append.mpr (Or.inl h), hn, hk⟩
    · exact ⟨e, List.mem_append.mpr (Or.inr (List.mem_singleton.mpr rfl)), hn, hk⟩

theorem hasName_of_hasKey {l : List ProjectEnvironment} {name x : String}
    (h : hasKeyUnderName l name x) : hasName l name := by
  obtain ⟨e, he, hn, hx⟩ := h
  refine ⟨e, he, hn, fun hk => ?_⟩
  rw [hk] at hx
  simp at hx

/-- Full characterization of the name-to-id-set builder: a name is
registered iff some record carries it together with at least one key, and
the stored set holds exactly the keys of the records carrying the name. -/
theorem nameToIds_char (envs : List ProjectEnvironment) :
    ∀ name : String,
      (mget (buildEnvNameToIdsMap envs) name = none ↔ ¬ hasName envs name) ∧
      (∀ s, mget (buildEnvNameToIdsMap envs) name = some s →
        s ≠ [] ∧ ∀ x, x ∈ s ↔ hasKeyUnderName envs name x) := by
  induction envs using List.reverseRecOn with
  | nil =>
    intro name
    constructor
    · constructor
      · rintro - ⟨e, he, -, -⟩
        simp at he
      · intro _
        rfl
    · intro s hs
      exact absurd hs (by simp [buildEnvNameToIdsMap, mget])
  | append_singleton l e ih =>
    intro name
    have hstep : buildEnvNameToIdsMap (l ++ [e]) =
        envNameToIdsStep (buildEnvNameToIdsMap l) e := by
      rw [buildEnvNameToIdsMap, buildEnvNameToIdsMap, List.foldl_append]
      rfl
    rw [hstep, envNameToIdsStep_eq]
    cases hset : (envKeys e).foldl sadd ((mget (buildEnvNameToIdsMap l) (envName e)).getD [])
        with
    | nil =>
      obtain ⟨hs0, hkeys⟩ := (foldl_sadd_eq_nil_iff _ _).mp hset
      have hif : (if ((([] : StrSet)).length == 0) = true then buildEnvNameToIdsMap l
          else mset (buildEnvNameToIdsMap l) (envName e) []) = buildEnvNameToIdsMap l := rfl
      rw [hif]
      constructor
      · rw [(ih name).1, hasName_append]
        simp [hkeys]
      · intro s hs
        obtain ⟨hne, hmem⟩ := (ih name).2 s hs
        refine ⟨hne, fun x => ?_⟩
        rw [hmem, hasKeyUnderName_append]
        simp [hkeys]
    | cons a as =>
      have hif : (if (((a :: as) : StrSet).length == 0) = true then buildEnvNameToIdsMap l
          else mset (buildEnvNameToIdsMap l) (envName e) (a :: as)) =
          mset (buildEnvNameToIdsMap l) (envName e) (a :: as) := rfl
      rw [hif]
      by_cases hnm : envName e = name
      · subst hnm
        rw [mget_mset, if_pos rfl]
        have hasname : hasName (l ++ [e]) (envName e) := by
          cases hkeys : envKeys e with
          | nil =>
            rw [hkeys] at hset
            have hsome : mget (buildEnvNameToIdsMap l) (envName e) = some (a :: as) := by
              cases hm : mget (buildEnvNameToIdsMap l) (envName e) with
              | none =>
                rw [hm] at hset
                simp at hset
              | some s' =>
                rw [hm] at hset
                simp at hset
                rw [hset]
            have hasl : hasName l (envName e) := by
              by_contra hcon
              rw [← (ih (envName e)).1] at hcon
              rw [hcon] at hsome
              cases hsome
            rw [hasName_append]
            exact Or.inl hasl
          | cons b bs =>
            refine (hasName_append l e (envName e)).mpr (Or.inr ⟨rfl, ?_⟩)
            rw [hkeys]
            simp
        constructor
        · constructor
          · intro h
            cases h
          · intro h
            exact absurd hasname h
        · intro s hs
          cases hs
          refine ⟨by simp, fun x => ?_⟩
          rw [← hset, foldl_sadd_mem, hasKeyUnderName_append]
          have hleft : x ∈ (mget (buildEnvNameToIdsMap l) (envName e)).getD [] ↔
              hasKeyUnderName l (envName e) x := by
            cases hm : mget (buildEnvNameToIdsMap l) (envName e) with
            | none =>
              simp only [Option.getD_none]
              constructor
              · intro hx
                simp at hx
              · intro hx
                exact absurd (hasName_of_hasKey hx) ((ih (envName e)).1.mp hm)
            | some s' =>
              simp only [Option.getD_some]
              exact ((ih (envName e)).2 s' hm).2 x
          rw [hleft]
          simp
      · rw [mget_mset, if_neg hnm]
        constructor
        · rw [(ih name).1, hasName_append]
          simp [hnm]
        · intro s hs
          obtain ⟨hne, hmem⟩ := (ih name).2 s hs
          refine ⟨hne, fun x => ?_⟩
          rw [hmem, hasKeyUnderName_append]
          simp [hnm]

theorem nameToIds_none_iff (envs : List ProjectEnvironment) (name : String) :
    mget (buildEnvNameToIdsMap envs) name = none ↔ ¬ hasName envs name :=
  (nameToIds_char envs name).1

theorem nameToIds_mem_iff (envs : List ProjectEnvironment) (name x : String) :
    (∃ s, mget (buildEnvNameToIdsMap envs) name = some s ∧ s.contains x = true) ↔
      hasKeyUnderName envs name x := by
  constructor
  · rintro ⟨s, hs, hx⟩
    exact (((nameToIds_char envs name).2 s hs).2 x).mp (scontains_iff.mp hx)
  · intro h
    cases hm : mget (buildEnvNameToIdsMap envs) name with
    | none =>
      exact absurd (hasName_of_hasKey h) ((nameToIds_none_iff envs name).mp hm)
    | some s =>
      exact ⟨s, rfl, scontains_iff.mpr ((((nameToIds_char envs name).2 s hm).2 x).mpr h)⟩

/-- C5 (counterexample): the builders are not order-independent in general:
two environments sharing id `"1"` but owned by different projects yield
different maps under a permutation of the input — last write wins, so
whichever record comes second determines the entry. -/
theorem builders_not_order_independent :
    [envA, envB].Perm [envB, envA] ∧
    mget (buildEnvToProjectMap [envA, envB]) "1" = some "B" ∧
    mget (buildEnvToProjectMap [envB, envA]) "1" = some "A" :=
  ⟨List.Perm.swap envB envA [], by decide, by decide⟩

/-- C5 (amended): all four builders are deterministic and idempotent
(rebuilding from a duplicated input yields an extensionally equal map);
on shared keys the later record in iteration order wins; and the builders
are order-independent provided distinct records never share a normalized
id/uuid key — the name-to-ids builder is order-independent unconditionally
up to set membership. -/
theorem builders_idempotent_lww_orderfree :
    (∀ envs : List ProjectEnvironment,
      mapEquiv (buildEnvToProjectMap (envs ++ envs)) (buildEnvToProjectMap envs) ∧
      mapEquiv (buildEnvNameMap (envs ++ envs)) (buildEnvNameMap envs) ∧
      mapEquiv (buildEnvLookup (envs ++ envs)) (buildEnvLookup envs) ∧
      setMapEquiv (buildEnvNameToIdsMap (envs ++ envs)) (buildEnvNameToIdsMap envs)) ∧
    (∀ (l : List ProjectEnvironment) (e : ProjectEnvironment) (k : String),
      k ∈ envKeys e →
      (∀ pid, envProjectId e = some pid →
        mget (buildEnvToProjectMap (l ++ [e])) k = some pid) ∧
      mget (buildEnvNameMap (l ++ [e])) k = some (envName e) ∧
      mget (buildEnvLookup (l ++ [e])) k = some e) ∧
    (∀ l l' : List ProjectEnvironment, l.Perm l' →
      (∀ e₁ ∈ l, ∀ e₂ ∈ l, ∀ k, k ∈ envKeys e₁ → k ∈ envKeys e₂ → e₁ = e₂) →
      mapEquiv (buildEnvToProjectMap l) (buildEnvToProjectMap l') ∧
      mapEquiv (buildEnvNameMap l) (buildEnvNameMap l') ∧
      mapEquiv (buildEnvLookup l) (buildEnvLookup l')) ∧
    (∀ l l' : List ProjectEnvironment, l.Perm l' →
      setMapEquiv (buildEnvNameToIdsMap l) (buildEnvNameToIdsMap l')) := by
  refine ⟨?idem, ?lww, ?perm, ?perms⟩
  case idem =>
    intro envs
    refine ⟨?_, ?_, ?_, ?_⟩
    · rw [buildEnvToProjectMap_eq, buildEnvToProjectMap_eq]
      exact buildGeneric_append_self contribProject envs
    · rw [buildEnvNameMap_eq, buildEnvNameMap_eq]
      exact buildGeneric_append_self contribName envs
    · rw [buildEnvLookup_eq, buildEnvLookup_eq]
      exact buildGeneric_append_self contribLookup envs
    · intro name
      have hn : hasName (envs ++ envs) name ↔ hasName envs name := by
        constructor
        · rintro ⟨e, he, h⟩
          rcases List.mem_append.mp he with h1 | h1 <;> exact ⟨e, h1, h⟩
        · rintro ⟨e, he, h⟩
          exact ⟨e, List.mem_append.mpr (Or.inl he), h⟩
      constructor
      · rw [nameToIds_none_iff, nameToIds_none_iff]
        exact not_congr hn
      · intro x
        rw [nameToIds_mem_iff, nameToIds_mem_iff]
        constructor
        · rintro ⟨e, he, h⟩
          rcases List.mem_append.mp he with h1 | h1 <;> exact ⟨e, h1, h⟩
        · rintro ⟨e, he, h⟩
          exact ⟨e, List.mem_append.mpr (Or.inl he), h⟩
  case lww =>
    intro l e k hk
    refine ⟨?_, ?_, ?_⟩
    · intro pid hpid
      rw [buildEnvToProjectMap_eq]
      refine mget_build_concat contribProject l e
        (contribProject_mem.mpr ⟨pid, hpid, hk, rfl⟩) ?_
      rintro ⟨p1, p2⟩ hp
      obtain ⟨pid', hpid', -, hv⟩ := contribProject_mem.mp hp
      rw [hpid] at hpid'
      cases hpid'
      exact hv
    · rw [buildEnvNameMap_eq]
      refine mget_build_concat contribName l e
        (contribName_mem.mpr ⟨hk, rfl⟩) ?_
      rintro ⟨p1, p2⟩ hp
      exact (contribName_mem.mp hp).2
    · rw [buildEnvLookup_eq]
      refine mget_build_concat contribLookup l e
        (contribLookup_mem.mpr ⟨hk, rfl⟩) ?_
      rintro ⟨p1, p2⟩ hp
      exact (contribLookup_mem.mp hp).2
  case perm =>
    intro l l' hp huniq
    refine ⟨?_, ?_, ?_⟩
    · rw [buildEnvToProjectMap_eq, buildEnvToProjectMap_eq]
      refine buildGeneric_perm contribProject hp ?_
      intro e₁ h₁ e₂ h₂ k v₁ v₂ hm₁ hm₂
      obtain ⟨p₁, hp₁, hk₁, hv₁⟩ := contribProject_mem.mp hm₁
      obtain ⟨p₂, hp₂, hk₂, hv₂⟩ := contribProject_mem.mp hm₂
      have he : e₁ = e₂ := huniq e₁ h₁ e₂ h₂ k hk₁ hk₂
      rw [he] at hp₁
      rw [hp₁] at hp₂
      cases hp₂
      rw [hv₁, hv₂]
    · rw [buildEnvNameMap_eq, buildEnvNameMap_eq]
      refine buildGeneric_perm contribName hp ?_
      intro e₁ h₁ e₂ h₂ k v₁ v₂ hm₁ hm₂
      obtain ⟨hk₁, hv₁⟩ := contribName_mem.mp hm₁
      obtain ⟨hk₂, hv₂⟩ := contribName_mem.mp hm₂
      rw [hv₁, hv₂, huniq e₁ h₁ e₂ h₂ k hk₁ hk₂]
    · rw [buildEnvLookup_eq, buildEnvLookup_eq]
      refine buildGeneric_perm contribLookup hp ?_
      intro e₁ h₁ e₂ h₂ k v₁ v₂ hm₁ hm₂
      obtain ⟨hk₁, hv₁⟩ := contribLookup_mem.mp hm₁
      obtain ⟨hk₂, hv₂⟩ := contribLookup_mem.mp hm₂
      rw [hv₁, hv₂, huniq e₁ h₁ e₂ h₂ k hk₁ hk₂]
  case perms =>
    intro l l' hp name
    have hn : hasName l name ↔ hasName l' name := by
      constructor
      · rintro ⟨e, he, h⟩
        exact ⟨e, hp.mem_iff.mp he, h⟩
      · rintro ⟨e, he, h⟩
        exact ⟨e, hp.mem_iff.mpr he, h⟩
    constructor
    · rw [nameToIds_none_iff, nameToIds_none_iff]
      exact not_congr hn
    · intro x
      rw [nameToIds_mem_iff, nameToIds_mem_iff]
      constructor
      · rintro ⟨e, he, h⟩
        exact ⟨e, hp.mem_iff.mp he, h⟩
      · rintro ⟨e, he, h⟩
        exact ⟨e, hp.mem_iff.mpr he, h⟩

/-- Witness for C5 (amended): concrete order independence, idempotence and
last-write-wins facts obtained from the theorem. -/
theorem builders_idempotent_lww_orderfree_witness :
    mget (buildEnvToProjectMap [envC, envD]) "10" =
      mget (buildEnvToProjectMap [envD, envC]) "10" ∧
    mget (buildEnvToProjectMap ([envA] ++ [envA])) "1" =
      mget (buildEnvToProjectMap [envA]) "1" ∧
    mget (buildEnvToProjectMap ([envA] ++ [envB])) "1" = some "B" := by
  have hkC : envKeys envC = ["10", "e1"] := by decide
  have hkD : envKeys envD = ["20", "e2"] := by decide
  have huniq : ∀ e₁ ∈ [envC, envD], ∀ e₂ ∈ [envC, envD], ∀ k,
      k ∈ envKeys e₁ → k ∈ envKeys e₂ → e₁ = e₂ := by
    intro e₁ h₁ e₂ h₂ k hk₁ hk₂
    have c₁ : e₁ = envC ∨ e₁ = envD := by simpa using h₁
    have c₂ : e₂ = envC ∨ e₂ = envD := by simpa using h₂
    rcases c₁ with rfl | rfl <;> rcases c₂ with rfl | rfl
    · rfl
    · rw [hkC] at hk₁
      rw [hkD] at hk₂
      rcases List.mem_cons.mp hk₁ with rfl | hk₁ <;>
        [skip; rcases List.mem_cons.mp hk₁ with rfl | hk₁] <;>
        first
        | exact absurd hk₂ (by decide)
        | simp at hk₁
    · rw [hkD] at hk₁
      rw [hkC] at hk₂
      rcases List.mem_cons.mp hk₁ with rfl | hk₁ <;>
        [skip; rcases List.mem_cons.mp hk₁ with rfl | hk₁] <;>
        first
        | exact absurd hk₂ (by decide)
        | simp at hk₁
    · rfl
  refine ⟨(builders_idempotent_lww_orderfree.2.2.1 [envC, envD] [envD, envC]
      (List.Perm.swap envD envC []) huniq).1 "10",
    (builders_idempotent_lww_orderfree.1 [envA]).1 "1",
    (builders_idempotent_lww_orderfree.2.1 [envA] envB "1" (by decide)).1 "B" (by decide)⟩

theorem flattenEnvironments_concat (ps : List Project) (p : Project) :
    flattenEnvironments (ps ++ [p]) =
      flattenEnvironments ps ++ (p.environments.getD []).map (enrichEnvironment p) := by
  rw [flattenEnvironments, flattenEnvironments, List.foldl_append]
  rfl

theorem flattenEnvironments_mem (projects : List Project) (r : ProjectEnvironment) :
    r ∈ flattenEnvironments projects ↔
      ∃ p ∈ projects, ∃ env ∈ p.environments.getD [], r = enrichEnvironment p env := by
  induction projects using List.reverseRecOn with
  | nil => simp [flattenEnvironments]
  | append_singleton ps p ih =>
    rw [flattenEnvironments_concat, List.mem_append, ih]
    constructor
    · rintro (⟨q, hq, env, henv, hr⟩ | hr)
      · exact ⟨q, List.mem_append.mpr (Or.inl hq), env, henv, hr⟩
      · obtain ⟨env, henv, hr⟩ := List.mem_map.mp hr
        exact ⟨p, List.mem_append.mpr (Or.inr (List.mem_singleton.mpr rfl)), env, henv, hr.symm⟩
    · rintro ⟨q, hq, env, henv, hr⟩
      rcases List.mem_append.mp hq with h | h
      · exact Or.inl ⟨q, h, env, henv, hr⟩
      · rcases List.mem_singleton.mp h with rfl
        exact Or.inr (List.mem_map.mpr ⟨env, henv, hr.symm⟩)

/-- C6 (counterexample): with a present-but-blank project id `" "` and
resolvable uuid `"u"`, the flattened record's `projectId` is null:
normalization runs on the result of `project.id ?? project.uuid`, so the
blank id blocks the fallback to the uuid, contradicting the claim that
`projectId` falls back to `project.uuid` and to the environment's fields
only when the project has neither id nor uuid. -/
theorem flattenEnvironments_blank_id :
    toId (ofOpt pBlankId.uuid) = some "u" ∧
    (flattenEnvironments [pBlankId]).map (fun r => r.projectId) = [none] :=
  ⟨by decide, by decide⟩

/-- C6 (amended): every flattened record carries a non-null `projectName`
(defaulting to `"Unnamed Project"`); its `projectId` is the normalization
of `project.id ?? project.uuid`, falling back to the normalization of
`environment.project_id ?? environment.project_uuid` exactly when the
former is null (so a present-but-blank project id blocks the uuid
fallback); and its `projectUuid` is the project's uuid when that is a
non-empty string, `undefined` otherwise. -/
theorem flattenEnvironments_fields (projects : List Project) (r : ProjectEnvironment)
    (hr : r ∈ flattenEnvironments projects) :
    r.projectName ≠ none ∧
    ∃ p ∈ projects, ∃ env ∈ p.environments.getD [],
      r = enrichEnvironment p env ∧
      r.projectName = some (p.name.getD "Unnamed Project") ∧
      r.projectId =
        (match toId (jsOr p.id (ofOpt p.uuid)) with
         | some v => some v
         | none => toId (jsOr env.project_id (ofOpt env.project_uuid))) ∧
      r.projectUuid = (if strTruthy p.uuid then p.uuid else none) := by
  obtain ⟨p, hp, env, henv, hr⟩ := (flattenEnvironments_mem projects r).mp hr
  subst hr
  exact ⟨Option.some_ne_none _, p, hp, env, henv, rfl, rfl, rfl, rfl⟩

/-- Witness for C6 (amended) on a concrete project. -/
theorem flattenEnvironments_fields_witness :
    enrichEnvironment pDemo envE ∈ flattenEnvironments [pDemo] ∧
    (enrichEnvironment pDemo envE).projectName ≠ none ∧
    (enrichEnvironment pDemo envE).projectId = some "1" := by
  have hmem : enrichEnvironment pDemo envE ∈ flattenEnvironments [pDemo] := by decide
  refine ⟨hmem, (flattenEnvironments_fields [pDemo] _ hmem).1, by decide⟩

theorem normalizeList_obj (fields : List (String × JsValue)) :
    normalizeList (.obj fields) =
      (if isArr (getField fields "rows") then arrElems (getField fields "rows")
       else if isArr (getField fields "data") then arrElems (getField fields "data")
       else if isArr (getField fields "deployments") then
         arrElems (getField fields "deployments")
       else if truthy (getField fields "data") && isObjectType (getField fields "data") then
         match getField fields "data" with
         | .obj nested =>
           if isArr (getField nested "rows") then arrElems (getField nested "rows")
           else if isArr (getField nested "data") then arrElems (getField nested "data")
           else []
         | _ => []
       else []) := rfl

/-- C2: `normalizeList` returns a bare array unchanged; on an object it
returns the first array found under `rows`, `data`, `deployments`, then the
doubly-nested `data.rows` and `data.data`, in that priority order; every
other input yields `[]` — any object with no recognized array under those
keys (nested included), null, undefined and scalars alike; and it is
total — it never throws. -/
theorem normalizeList_spec :
    (∀ xs : List JsValue, normalizeList (.arr xs) = xs) ∧
    (∀ fields rows, getField fields "rows" = .arr rows →
      normalizeList (.obj fields) = rows) ∧
    (∀ fields dataArr, isArr (getField fields "rows") = false →
      getField fields "data" = .arr dataArr →
      normalizeList (.obj fields) = dataArr) ∧
    (∀ fields deps, isArr (getField fields "rows") = false →
      isArr (getField fields "data") = false →
      getField fields "deployments" = .arr deps →
      normalizeList (.obj fields) = deps) ∧
    (∀ fields nested rows, isArr (getField fields "rows") = false →
      isArr (getField fields "deployments") = false →
      getField fields "data" = .obj nested →
      getField nested "rows" = .arr rows →
      normalizeList (.obj fields) = rows) ∧
    (∀ fields nested nestedData, isArr (getField fields "rows") = false →
      isArr (getField fields "deployments") = false →
      getField fields "data" = .obj nested →
      isArr (getField nested "rows") = false →
      getField nested "data" = .arr nestedData →
      normalizeList (.obj fields) = nestedData) ∧
    (∀ fields, isArr (getField fields "rows") = false →
      isArr (getField fields "data") = false →
      isArr (getField fields "deployments") = false →
      (∀ nested, getField fields "data" = .obj nested →
        isArr (getField nested "rows") = false ∧
        isArr (getField nested "data") = false) →
      normalizeList (.obj fields) = []) ∧
    normalizeList (.obj []) = [] ∧
    normalizeList .null = [] ∧
    normalizeList .undef = [] ∧
    (∀ s, normalizeList (.str s) = []) ∧
    (∀ n, normalizeList (.num n) = []) ∧
    (∀ b, normalizeList (.bool b) = []) ∧
    (∀ v, ∃ l, normalizeList v = l) := by
  refine ⟨fun xs => rfl, ?c2, ?c3, ?c4, ?c5, ?c6, ?c7, rfl, rfl, rfl,
    fun s => by simp [normalizeList, isArr, truthy, isObjectType],
    fun n => by simp [normalizeList, isArr, truthy, isObjectType],
    fun b => by cases b <;> rfl, fun v => ⟨_, rfl⟩⟩
  case c2 =>
    intro fields rows h
    rw [normalizeList_obj, h]
    rfl
  case c3 =>
    intro fields dataArr h1 h2
    rw [normalizeList_obj, h1, h2]
    simp [isArr, arrElems]
  case c4 =>
    intro fields deps h1 h2 h3
    rw [normalizeList_obj, h1, h2, h3]
    simp [isArr, arrElems]
  case c5 =>
    intro fields nested rows h1 h2 h3 h4
    rw [normalizeList_obj, h1, h2, h3]
    simp [isArr, arrElems, truthy, isObjectType, h4]
  case c6 =>
    intro fields nested nestedData h1 h2 h3 h4 h5
    rw [normalizeList_obj, h1, h2, h3]
    cases hr : getField nested "rows" with
    | arr elems =>
      rw [hr] at h4
      simp [isArr] at h4
    | undef => rw [hr] at h4; simp [isArr, arrElems, truthy, isObjectType, hr, h5]
    | null => rw [hr] at h4; simp [isArr, arrElems, truthy, isObjectType, hr, h5]
    | bool b => rw [hr] at h4; simp [isArr, arrElems, truthy, isObjectType, hr, h5]
    | num n => rw [hr] at h4; simp [isArr, arrElems, truthy, isObjectType, hr, h5]
    | str s => rw [hr] at h4; simp [isArr, arrElems, truthy, isObjectType, hr, h5]
    | obj fs => rw [hr] at h4; simp [isArr, arrElems, truthy, isObjectType, hr, h5]
  case c7 =>
    intro fields h1 h2 h3 h4
    rw [normalizeList_obj, h1, h2, h3]
    cases hd : getField fields "data" with
    | obj nested =>
      obtain ⟨hn1, hn2⟩ := h4 nested hd
      simp [truthy, isObjectType, hn1, hn2]
    | arr elems =>
      rw [hd] at h2
      simp [isArr] at h2
    | undef => simp [truthy, isObjectType]
    | null => simp [truthy, isObjectType]
    | bool b => simp [truthy, isObjectType]
    | num m => simp [truthy, isObjectType]
    | str s => simp [truthy, isObjectType]

/-- Witness for C2 at concrete shaped payloads, including non-empty
objects with no recognized array shape. -/
theorem normalizeList_spec_witness :
    getField [("rows", JsValue.arr [JsValue.num 1])] "rows" = JsValue.arr [JsValue.num 1] ∧
    normalizeList (.obj [("rows", .arr [.num 1])]) = [JsValue.num 1] ∧
    normalizeList (.obj [("data", .obj [("data", .arr [JsValue.num 2])])]) = [JsValue.num 2] ∧
    normalizeList (.obj [("a", JsValue.num 1)]) = [] ∧
    normalizeList (.obj [("data", JsValue.obj [("a", JsValue.num 1)])]) = [] :=
  ⟨rfl, normalizeList_spec.2.1 [("rows", .arr [.num 1])] [JsValue.num 1] rfl,
    normalizeList_spec.2.2.2.2.2.1 [("data", .obj [("data", .arr [JsValue.num 2])])]
      [("data", JsValue.arr [JsValue.num 2])] [JsValue.num 2] rfl rfl rfl rfl rfl,
    normalizeList_spec.2.2.2.2.2.2.1 [("a", JsValue.num 1)] rfl rfl rfl
      (fun nested h => nomatch h),
    normalizeList_spec.2.2.2.2.2.2.1 [("data", JsValue.obj [("a", JsValue.num 1)])]
      rfl rfl rfl (fun nested h => by cases h; exact ⟨rfl, rfl⟩)⟩

theorem list_isPrefixOf_append (a b : List Char) : a.isPrefixOf (a ++ b) = true := by
  induction a with
  | nil => simp
  | cons c cs ih => simp [List.isPrefixOf, ih]

theorem strStarts_append (tag p : String) : strStarts (tag ++ p) tag = true := by
  obtain ⟨a⟩ := tag
  obtain ⟨b⟩ := p
  exact list_isPrefixOf_append a b

theorem stripTag_append (tag p : String) : stripTag tag (tag ++ p) = p := by
  obtain ⟨a⟩ := tag
  obtain ⟨b⟩ := p
  show String.mk ((a ++ b).drop a.length) = String.mk b
  rw [List.drop_left]

theorem tag_append_ne_head (tag p other : String) (c d : Char)
    (htag : tag.data.head? = some c) (hother : other.data.head? = some d) (hne : c ≠ d) :
    (tag ++ p) ≠ other := by
  intro he
  obtain ⟨td⟩ := tag
  obtain ⟨pd⟩ := p
  obtain ⟨od⟩ := other
  have h2 : td ++ pd = od := congrArg String.data he
  rw [← h2] at hother
  cases td with
  | nil => simp at htag
  | cons t ts =>
    rw [List.cons_append] at hother
    simp [List.head?] at htag hother
    rw [htag] at hother
    exact hne hother

theorem strStarts_false_of_head (tag p pre : String) (c d : Char)
    (htag : tag.data.head? = some c) (hpre : pre.data.head? = some d) (hne : c ≠ d) :
    strStarts (tag ++ p) pre = false := by
  obtain ⟨td⟩ := tag
  obtain ⟨pd⟩ := p
  obtain ⟨prd⟩ := pre
  cases td with
  | nil => simp at htag
  | cons t ts =>
    cases prd with
    | nil => simp at hpre
    | cons q qs =>
      have htag' : t = c := by simpa using htag
      have hpre' : q = d := by simpa using hpre
      have hbeq : (q == t) = false := by
        rw [htag', hpre']
        exact beq_eq_false_iff_ne.mpr (Ne.symm hne)
      show ((q == t) && List.isPrefixOf qs (ts ++ pd)) = false
      rw [hbeq, Bool.false_and]

theorem bfalse_ne_true {b : Bool} (h : b = false) : ¬(b = true) := by
  rw [h]
  exact Bool.false_ne_true

/-- C4: the three URL resolvers are all-or-nothing — they return
`undefined` whenever any required uuid is missing (absent or empty), and
otherwise exactly the templated path over the instance url with trailing
slashes stripped. -/
theorem resolveUrls_all_or_nothing :
    (∀ instanceUrl projectUuid environmentUuid resourceUuid type,
      Resources.resolveResourceUrl instanceUrl projectUuid environmentUuid resourceUuid type =
        (if strTruthy projectUuid && strTruthy environmentUuid && strTruthy resourceUuid then
          some (stripTrailing instanceUrl ++ "/project/" ++ projectUuid.getD "" ++
            "/environment/" ++ environmentUuid.getD "" ++ "/" ++ type ++ "/" ++
            resourceUuid.getD "")
         else none)) ∧
    (∀ instanceUrl projectUuid environmentUuid applicationUuid deploymentUuid,
      Deployments.buildCoolifyDeploymentUrl instanceUrl projectUuid environmentUuid
          applicationUuid deploymentUuid =
        (if strTruthy projectUuid && strTruthy environmentUuid &&
            strTruthy applicationUuid && strTruthy deploymentUuid then
          some (stripTrailing instanceUrl ++ "/project/" ++ projectUuid.getD "" ++
            "/environment/" ++ environmentUuid.getD "" ++ "/application/" ++
            applicationUuid.getD "" ++ "/deployment/" ++ deploymentUuid.getD "")
         else none)) ∧
    (∀ instanceUrl projectUuid environmentUuid applicationUuid,
      Deployments.buildCoolifyLogsUrl instanceUrl projectUuid environmentUuid
          applicationUuid =
        (if strTruthy projectUuid && strTruthy environmentUuid &&
            strTruthy applicationUuid then
          some (stripTrailing instanceUrl ++ "/project/" ++ projectUuid.getD "" ++
            "/environment/" ++ environmentUuid.getD "" ++ "/application/" ++
            applicationUuid.getD "" ++ "/logs")
         else none)) := by
  refine ⟨?_, ?_, ?_⟩
  · intro i p e r t
    cases hp : strTruthy p <;> cases he : strTruthy e <;> cases hr : strTruthy r <;>
      simp [Resources.resolveResourceUrl, hp, he, hr]
  · intro i p e a d
    cases hp : strTruthy p <;> cases he : strTruthy e <;> cases ha : strTruthy a <;>
      cases hd : strTruthy d <;>
      simp [Deployments.buildCoolifyDeploymentUrl, hp, he, ha, hd]
  · intro i p e a
    cases hp : strTruthy p <;> cases he : strTruthy e <;> cases ha : strTruthy a <;>
      simp [Deployments.buildCoolifyLogsUrl, hp, he, ha]

/-- C7: every `applyFilter` variant is the identity on the selector
`"all"` — unified resources, databases, applications and deployments. -/
theorem applyFilter_all_id :
    (∀ items envToProjectMap envNameToIds,
      Resources.applyFilter items "all" envToProjectMap envNameToIds = items) ∧
    (∀ items envToProjectMap envNameToIds,
      Databases.applyFilter items "all" envToProjectMap envNameToIds = items) ∧
    (∀ items envToProjectMap hasEnvMapping envNameToIds,
      Applications.applyFilter items "all" envToProjectMap hasEnvMapping envNameToIds =
        items) ∧
    (∀ items envToProjectMap envNameToIds appIdToEnvId,
      Deployments.applyFilter items "all" envToProjectMap envNameToIds appIdToEnvId =
        items) :=
  ⟨fun _ _ _ => rfl, fun _ _ _ => rfl, fun _ _ _ _ => rfl, fun _ _ _ _ => rfl⟩

/-- C8 (counterexample): with `hasEnvMapping = false`, the applications
variant returns the whole input for a `project:` selector, including an
item whose resolved environment does not map to the requested project. -/
theorem applications_project_filter_bypassed :
    Applications.applyFilter [appZ] "project:P" mapZ false [] = [appZ] ∧
    mget mapZ (jsString (jsOr appZ.environment_id (.str ""))) ≠ some "P" :=
  ⟨by decide, by decide⟩

/-- C8 (amended): the `project:p` selector returns exactly the sublist (in
original order) of items whose variant-resolved environment key maps via
`envToProjectMap` to `p` — resources use `environmentId ?? ""`,
databases/applications use `String(environment_id ?? "")`, deployments use
the app-map/own-fields resolution — except that the applications variant
returns the input unchanged when `hasEnvMapping` is false. -/
theorem applyFilter_project_exact :
    (∀ (items : List ResourceItem) (p : String) envToProjectMap envNameToIds,
      Resources.applyFilter items ("project:" ++ p) envToProjectMap envNameToIds =
        items.filter (fun item =>
          mget envToProjectMap (item.environmentId.getD "") == some p)) ∧
    (∀ (items : List Database) (p : String) envToProjectMap envNameToIds,
      Databases.applyFilter items ("project:" ++ p) envToProjectMap envNameToIds =
        items.filter (fun item =>
          mget envToProjectMap (jsString (jsOr item.environment_id (.str ""))) == some p)) ∧
    (∀ (items : List Application) (p : String) envToProjectMap hasEnvMapping envNameToIds,
      Applications.applyFilter items ("project:" ++ p) envToProjectMap hasEnvMapping
          envNameToIds =
        (if hasEnvMapping then
          items.filter (fun item =>
            mget envToProjectMap (jsString (jsOr item.environment_id (.str ""))) == some p)
         else items)) ∧
    (∀ (items : List Deployment) (p : String) envToProjectMap envNameToIds appIdToEnvId,
      Deployments.applyFilter items ("project:" ++ p) envToProjectMap envNameToIds
          appIdToEnvId =
        items.filter (fun item =>
          mget envToProjectMap (resolveEnvId item appIdToEnvId (resolveAppKey item)) ==
            some p)) := by
  refine ⟨?_, ?_, ?_, ?_⟩
  · intro items p m s
    unfold Resources.applyFilter
    rw [if_neg (tag_append_ne_head "project:" p "all" 'p' 'a' rfl rfl (by decide)),
      if_pos (strStarts_append "project:" p), stripTag_append]
  · intro items p m s
    have henv : strStarts ("project:" ++ p) "env:" = false :=
      strStarts_false_of_head "project:" p "env:" 'p' 'e' rfl rfl (by decide)
    unfold Databases.applyFilter
    rw [if_neg (tag_append_ne_head "project:" p "all" 'p' 'a' rfl rfl (by decide)),
      if_neg (bfalse_ne_true henv),
      if_pos (strStarts_append "project:" p), stripTag_append]
  · intro items p m hM s
    have henv : strStarts ("project:" ++ p) "env:" = false :=
      strStarts_false_of_head "project:" p "env:" 'p' 'e' rfl rfl (by decide)
    unfold Applications.applyFilter
    rw [if_neg (tag_append_ne_head "project:" p "all" 'p' 'a' rfl rfl (by decide)),
      if_neg (bfalse_ne_true henv),
      if_pos (strStarts_append "project:" p), stripTag_append]
    cases hM <;> rfl
  · intro items p m s a
    unfold Deployments.applyFilter
    rw [if_neg (tag_append_ne_head "project:" p "all" 'p' 'a' rfl rfl (by decide)),
      if_neg (tag_append_ne_head "project:" p "status:active" 'p' 's' rfl rfl (by decide)),
      if_pos (strStarts_append "project:" p), stripTag_append]

/-- C9 (counterexample): a first token that declares the `ftp` scheme is
not returned unchanged — the code only recognizes `http://`/`https://`
and prefixes everything else with `https://`. -/
theorem getPrimaryUrl_ftp :
    appFtp.fqdn = some "ftp://files.example.com" ∧
    getPrimaryUrl appFtp = some "https://ftp://files.example.com" ∧
    getPrimaryUrl appFtp ≠ some "ftp://files.example.com" :=
  ⟨rfl, by decide, by decide⟩

/-- C9 (amended): `getPrimaryUrl` returns `undefined` when `fqdn` is
absent or its trimmed first comma token is empty; otherwise it returns the
trimmed first token unchanged when that token starts with `http://` or
`https://`, and `https://`-prefixed otherwise. -/
theorem getPrimaryUrl_spec (app : Application) :
    getPrimaryUrl app =
      (let raw := jsTrim ((jsSplit (app.fqdn.getD "") ',').headD "")
       if app.fqdn = none ∨ raw = "" then none
       else if strStarts raw "http://" || strStarts raw "https://" then some raw
       else some ("https://" ++ raw)) := by
  cases happ : app.fqdn with
  | none =>
    unfold getPrimaryUrl
    rw [happ]
    decide
  | some s =>
    unfold getPrimaryUrl
    rw [happ]
    by_cases hs : s = ""
    · subst hs
      decide
    · have hbeq : (s == "") = false := beq_eq_false_iff_ne.mpr hs
      simp [strTruthy, hbeq, hs]

theorem toId_ne_empty {v : JsId} {t : String} (h : toId v = some t) : t ≠ "" := by
  intro ht
  subst ht
  cases v with
  | undef => cases h
  | null => cases h
  | num n =>
    rw [toId_num_eq] at h
    split at h
    · rename_i hlen
      injection h with h'
      rw [h'] at hlen
      exact absurd hlen (by decide)
    · cases h
  | str s =>
    rw [toId_str_eq] at h
    split at h
    · rename_i hlen
      injection h with h'
      rw [h'] at hlen
      exact absurd hlen (by decide)
    · cases h

theorem envKeys_ne_empty {e : ProjectEnvironment} {k : String} (hk : k ∈ envKeys e) :
    k ≠ "" := by
  rw [envKeys] at hk
  rcases List.mem_append.mp hk with h | h
  · cases ht : toId e.id with
    | none =>
      rw [ht] at h
      simp at h
    | some t =>
      rw [ht] at h
      simp at h
      rw [h]
      exact toId_ne_empty ht
  · cases ht : toId (ofOpt e.uuid) with
    | none =>
      rw [ht] at h
      simp at h
    | some t =>
      rw [ht] at h
      simp at h
      rw [h]
      exact toId_ne_empty ht

theorem nameToIds_no_empty_key (envs : List ProjectEnvironment) (name : String)
    (s : StrSet) (hs : mget (buildEnvNameToIdsMap envs) name = some s) :
    s.contains "" = false := by
  by_contra h
  rw [Bool.not_eq_false] at h
  obtain ⟨e, he, hn, hk⟩ :=
    (((nameToIds_char envs name).2 s hs).2 "").mp (scontains_iff.mp h)
  exact envKeys_ne_empty hk rfl

theorem envToProjectMap_no_empty_key (envs : List ProjectEnvironment) :
    mget (buildEnvToProjectMap envs) "" = none := by
  rw [buildEnvToProjectMap_eq, mget_build_none_iff]
  intro e he v hv
  obtain ⟨pid, hpid, hk, hveq⟩ := contribProject_mem.mp hv
  exact envKeys_ne_empty hk rfl

/-- C10: the databases and applications filters resolve the item's
environment key from `environment_id` alone (`String(environment_id ??
"")`); an item with absent (undefined or null) `environment_id` is never
included by the `env:` or `project:` selectors, even when its
`environment_uuid` is registered in the lookup maps. (The applications
`project:` branch is stated with `hasEnvMapping = true`, which is what the
caller passes whenever the map has entries.) -/
theorem per_type_filters_require_environment_id
    (envs : List ProjectEnvironment) (n p : String) (hasEnvMapping : Bool)
    (db : Database) (hdb : db.environment_id = .undef ∨ db.environment_id = .null)
    (app : Application) (happ : app.environment_id = .undef ∨ app.environment_id = .null)
    (dbs : List Database) (apps : List Application) :
    db ∉ Databases.applyFilter dbs ("env:" ++ n) (buildEnvToProjectMap envs)
        (buildEnvNameToIdsMap envs) ∧
    db ∉ Databases.applyFilter dbs ("project:" ++ p) (buildEnvToProjectMap envs)
        (buildEnvNameToIdsMap envs) ∧
    app ∉ Applications.applyFilter apps ("env:" ++ n) (buildEnvToProjectMap envs)
        hasEnvMapping (buildEnvNameToIdsMap envs) ∧
    app ∉ Applications.applyFilter apps ("project:" ++ p) (buildEnvToProjectMap envs)
        true (buildEnvNameToIdsMap envs) := by
  have hkey_db : jsString (jsOr db.environment_id (.str "")) = "" := by
    rcases hdb with h | h <;> rw [h] <;> rfl
  have hkey_app : jsString (jsOr app.environment_id (.str "")) = "" := by
    rcases happ with h | h <;> rw [h] <;> rfl
  have henvtag : strStarts ("project:" ++ p) "env:" = false :=
    strStarts_false_of_head "project:" p "env:" 'p' 'e' rfl rfl (by decide)
  refine ⟨?_, ?_, ?_, ?_⟩
  · unfold Databases.applyFilter
    rw [if_neg (tag_append_ne_head "env:" n "all" 'e' 'a' rfl rfl (by decide)),
      if_pos (strStarts_append "env:" n), stripTag_append]
    show db ∉
      (match mget (buildEnvNameToIdsMap envs) n with
       | none => ([] : List Database)
       | some envIds =>
         dbs.filter (fun item =>
           envIds.contains (jsString (jsOr item.environment_id (.str "")))))
    cases hm : mget (buildEnvNameToIdsMap envs) n with
    | none => simp
    | some envIds =>
      intro hmem
      obtain ⟨-, hpred⟩ := List.mem_filter.mp hmem
      rw [hkey_db] at hpred
      rw [nameToIds_no_empty_key envs n envIds hm] at hpred
      cases hpred
  · unfold Databases.applyFilter
    rw [if_neg (tag_append_ne_head "project:" p "all" 'p' 'a' rfl rfl (by decide)),
      if_neg (bfalse_ne_true henvtag),
      if_pos (strStarts_append "project:" p), stripTag_append]
    intro hmem
    obtain ⟨-, hpred⟩ := List.mem_filter.mp hmem
    rw [hkey_db, envToProjectMap_no_empty_key envs] at hpred
    cases hpred
  · unfold Applications.applyFilter
    rw [if_neg (tag_append_ne_head "env:" n "all" 'e' 'a' rfl rfl (by decide)),
      if_pos (strStarts_append "env:" n), stripTag_append]
    show app ∉
      (match mget (buildEnvNameToIdsMap envs) n with
       | none => ([] : List Application)
       | some envIds =>
         apps.filter (fun item =>
           envIds.contains (jsString (jsOr item.environment_id (.str "")))))
    cases hm : mget (buildEnvNameToIdsMap envs) n with
    | none => simp
    | some envIds =>
      intro hmem
      obtain ⟨-, hpred⟩ := List.mem_filter.mp hmem
      rw [hkey_app] at hpred
      rw [nameToIds_no_empty_key envs n envIds hm] at hpred
      cases hpred
  · unfold Applications.applyFilter
    rw [if_neg (tag_append_ne_head "project:" p "all" 'p' 'a' rfl rfl (by decide)),
      if_neg (bfalse_ne_true henvtag),
      if_pos (strStarts_append "project:" p),
      if_neg (by decide : ¬((!true) = true)), stripTag_append]
    intro hmem
    obtain ⟨-, hpred⟩ := List.mem_filter.mp hmem
    rw [hkey_app, envToProjectMap_no_empty_key envs] at hpred
    cases hpred

/-- Witness for C10 at a concrete registered environment. -/
theorem per_type_filters_require_environment_id_witness :
    (dbNoEnv.environment_id = JsId.undef ∨ dbNoEnv.environment_id = JsId.null) ∧
    mget (buildEnvToProjectMap [envC]) "e1" = some "1" ∧
    dbNoEnv ∉ Databases.applyFilter [dbNoEnv] ("project:" ++ "1")
      (buildEnvToProjectMap [envC]) (buildEnvNameToIdsMap [envC]) ∧
    appNoEnv ∉ Applications.applyFilter [appNoEnv] ("env:" ++ "production")
      (buildEnvToProjectMap [envC]) false (buildEnvNameToIdsMap [envC]) := by
  have h := per_type_filters_require_environment_id [envC] "production" "1" false
    dbNoEnv (Or.inl rfl) appNoEnv (Or.inr rfl) [dbNoEnv] [appNoEnv]
  exact ⟨Or.inl rfl, by decide, h.2.1, h.2.2.1⟩

end CoolifyOps
